import Mathlib

/-!
Verification development for the invoice extraction pipeline
(`processor-function/main.py`): a shallow embedding of the pure core of the
pipeline (date normalization, numeric normalization, entity classification and
reshaping, trigger-path validation, orchestration skeleton), together with
theorems about the embedded definitions.

Conventions of the embedding:
* Python strings are Lean `String`s; parsing works on `String.toList`.
* Python `None` / absent values are explicit constructors (`Val.null`,
  `SVal.null`) or `Option.none`.
* Python floats are modelled as rationals (`ℚ`): the pipeline only parses and
  stores numeric values, it never does arithmetic on them, so equalities of
  parsed literals are preserved by the rational abstraction.
* `datetime.strptime` is modelled after CPython's `_strptime` regex semantics:
  each directive is an ordered alternation, the overall regex match is the
  first complete-pattern match in backtracking preference order, the match
  must consume the whole input, and the resulting date must be a valid
  calendar date with year between 1 and 9999.
* `strftime('%Y-%m-%d')` is modelled as zero-padded fields (`0001-02-03`),
  following the documented output format.
-/

/-! ## Backtracking matchers for the strptime directives

`PM α` is the type of a directive matcher: it returns every way the directive
can consume a prefix of the input, in regex backtracking preference order
(leftmost alternative first).  Sequencing (`pbind`) therefore enumerates the
complete-pattern matches in exactly the order the regex engine explores them,
and the head of the final list is the match the engine returns. -/

def PM (α : Type) : Type := List Char → List (α × List Char)

def pbind {α β : Type} (p : PM α) (f : α → PM β) : PM β :=
  fun l => (p l).flatMap fun ar => f ar.1 ar.2

def ppure {α : Type} (a : α) : PM α := fun l => [(a, l)]

/-- Literal character in the format string. -/
def plit (c : Char) : PM Unit :=
  fun l =>
    match l with
    | [] => []
    | c' :: rest => if c' = c then [((), rest)] else []

/-- A run of whitespace in the format string becomes the regex `\s+`:
one or more whitespace characters, greedy, with backtracking candidates from
longest to shortest. -/
def pws : PM Unit :=
  fun l =>
    let n := (l.takeWhile Char.isWhitespace).length
    (List.range n).map fun i => ((), l.drop (n - i))

def charVal (c : Char) : Nat := c.toNat - 48

/-- `%m`: the regex alternation `1[0-2]|0[1-9]|[1-9]`. -/
def pm : PM Nat
  | c1 :: c2 :: rest =>
    (if c1 = '1' ∧ (c2 = '0' ∨ c2 = '1' ∨ c2 = '2') then [(10 + charVal c2, rest)] else []) ++
    (if c1 = '0' ∧ ('1' ≤ c2 ∧ c2 ≤ '9') then [(charVal c2, rest)] else []) ++
    (if '1' ≤ c1 ∧ c1 ≤ '9' then [(charVal c1, c2 :: rest)] else [])
  | [c1] => if '1' ≤ c1 ∧ c1 ≤ '9' then [(charVal c1, [])] else []
  | [] => []

/-- `%d`: the regex alternation `3[01]|[12]\d|0[1-9]|[1-9]`. -/
def pd : PM Nat
  | c1 :: c2 :: rest =>
    (if c1 = '3' ∧ (c2 = '0' ∨ c2 = '1') then [(30 + charVal c2, rest)] else []) ++
    (if (c1 = '1' ∨ c1 = '2') ∧ c2.isDigit then [(charVal c1 * 10 + charVal c2, rest)] else []) ++
    (if c1 = '0' ∧ ('1' ≤ c2 ∧ c2 ≤ '9') then [(charVal c2, rest)] else []) ++
    (if '1' ≤ c1 ∧ c1 ≤ '9' then [(charVal c1, c2 :: rest)] else [])
  | [c1] => if '1' ≤ c1 ∧ c1 ≤ '9' then [(charVal c1, [])] else []
  | [] => []

/-- `%Y`: the regex `\d\d\d\d` — exactly four digits. -/
def pY : PM Nat
  | c1 :: c2 :: c3 :: c4 :: rest =>
    if c1.isDigit ∧ c2.isDigit ∧ c3.isDigit ∧ c4.isDigit then
      [(charVal c1 * 1000 + charVal c2 * 100 + charVal c3 * 10 + charVal c4, rest)]
    else []
  | _ => []

/-- Case-insensitive character comparison (the strptime regex is compiled with
IGNORECASE). -/
def lcEq (a b : Char) : Bool := a.toLower == b.toLower

/-- Case-insensitively strip a pattern from the front of the input. -/
def stripCI : List Char → List Char → Option (List Char)
  | [], l => some l
  | _ :: _, [] => none
  | p :: ps, c :: cs => if lcEq p c then stripCI ps cs else none

def monthCand (n : Nat) (name : String) : PM Nat :=
  fun l =>
    match stripCI name.toList l with
    | some rest => [(n, rest)]
    | none => []

/-- `%B`: alternation of the full month names, case-insensitive; the value is
the month number.  (No month name is a prefix of another — even ignoring
case — so at most one alternative matches and the alternation order is
immaterial.) -/
def pB : PM Nat :=
  fun l =>
    monthCand 1 "January" l ++ monthCand 2 "February" l ++ monthCand 3 "March" l ++
    monthCand 4 "April" l ++ monthCand 5 "May" l ++ monthCand 6 "June" l ++
    monthCand 7 "July" l ++ monthCand 8 "August" l ++ monthCand 9 "September" l ++
    monthCand 10 "October" l ++ monthCand 11 "November" l ++ monthCand 12 "December" l

/-! ## Dates and the format list -/

structure PDate where
  year : Nat
  month : Nat
  day : Nat
deriving DecidableEq, Repr

def isLeap (y : Nat) : Bool := (y % 4 == 0 && y % 100 != 0) || y % 400 == 0

def daysInMonth (y m : Nat) : Nat :=
  if m = 2 then (if isLeap y then 29 else 28)
  else if m = 4 ∨ m = 6 ∨ m = 9 ∨ m = 11 then 30
  else 31

/-- Validity condition enforced by `datetime`'s constructor: year in
`MINYEAR..MAXYEAR`, month in `1..12`, day in range for the month. -/
def dateOK (d : PDate) : Bool :=
  1 ≤ d.year && d.year ≤ 9999 && 1 ≤ d.month && d.month ≤ 12 &&
    1 ≤ d.day && d.day ≤ daysInMonth d.year d.month

/-- The eight formats of `COMMON_DATE_FORMATS` in `robust_date_parser`, in
source order. -/
inductive DateFmt where
  | fmtBdY   -- '%B %d, %Y'   January 31, 2016
  | fmtdBY   -- '%d %B, %Y'   31 January, 2016
  | fmtmdY   -- '%m/%d/%Y'    01/31/2016
  | fmtmdY2  -- '%m-%d-%Y'    01-31-2016
  | fmtYmd   -- '%Y/%m/%d'    2016/01/31
  | fmtYmd2  -- '%Y-%m-%d'    2016-01-31
  | fmtdmY   -- '%d/%m/%Y'    14/08/2023
  | fmtdmY2  -- '%d-%m-%Y'    14-08-2023
deriving DecidableEq, Repr

def COMMON_DATE_FORMATS : List DateFmt :=
  [.fmtBdY, .fmtdBY, .fmtmdY, .fmtmdY2, .fmtYmd, .fmtYmd2, .fmtdmY, .fmtdmY2]

/-- All complete-pattern matches of one format, in regex preference order. -/
def fmtCand : DateFmt → PM PDate
  | .fmtBdY =>
    pbind pB fun m => pbind pws fun _ => pbind pd fun d => pbind (plit ',') fun _ =>
      pbind pws fun _ => pbind pY fun y => ppure ⟨y, m, d⟩
  | .fmtdBY =>
    pbind pd fun d => pbind pws fun _ => pbind pB fun m => pbind (plit ',') fun _ =>
      pbind pws fun _ => pbind pY fun y => ppure ⟨y, m, d⟩
  | .fmtmdY =>
    pbind pm fun m => pbind (plit '/') fun _ => pbind pd fun d => pbind (plit '/') fun _ =>
      pbind pY fun y => ppure ⟨y, m, d⟩
  | .fmtmdY2 =>
    pbind pm fun m => pbind (plit '-') fun _ => pbind pd fun d => pbind (plit '-') fun _ =>
      pbind pY fun y => ppure ⟨y, m, d⟩
  | .fmtYmd =>
    pbind pY fun y => pbind (plit '/') fun _ => pbind pm fun m => pbind (plit '/') fun _ =>
      pbind pd fun d => ppure ⟨y, m, d⟩
  | .fmtYmd2 =>
    pbind pY fun y => pbind (plit '-') fun _ => pbind pm fun m => pbind (plit '-') fun _ =>
      pbind pd fun d => ppure ⟨y, m, d⟩
  | .fmtdmY =>
    pbind pd fun d => pbind (plit '/') fun _ => pbind pm fun m => pbind (plit '/') fun _ =>
      pbind pY fun y => ppure ⟨y, m, d⟩
  | .fmtdmY2 =>
    pbind pd fun d => pbind (plit '-') fun _ => pbind pm fun m => pbind (plit '-') fun _ =>
      pbind pY fun y => ppure ⟨y, m, d⟩

/-- `datetime.strptime(s, fmt)` restricted to the formats the code uses,
returning `none` where Python raises `ValueError`: the regex engine yields its
preferred match (head of the candidate list); the match must consume the whole
string ("unconverted data remains" otherwise); the date must be constructible. -/
def strptime (s : String) (f : DateFmt) : Option PDate :=
  match fmtCand f s.toList with
  | [] => none
  | (d, rest) :: _ => if rest = [] ∧ dateOK d then some d else none

def dChar (n : Nat) : Char := Nat.digitChar n

def pad2 (n : Nat) : List Char := [dChar (n / 10 % 10), dChar (n % 10)]

def pad4 (n : Nat) : List Char :=
  [dChar (n / 1000 % 10), dChar (n / 100 % 10), dChar (n / 10 % 10), dChar (n % 10)]

/-- `date_object.strftime('%Y-%m-%d')`: zero-padded `YYYY-MM-DD`. -/
def strftimeYMD (d : PDate) : String :=
  String.mk (pad4 d.year ++ '-' :: (pad2 d.month ++ '-' :: pad2 d.day))

/-- The loop of `robust_date_parser`: try each format in order, returning the
first successful parse reformatted; `ValueError`/`TypeError` from `strptime`
is caught and the next format is tried. -/
def tryFormats : List DateFmt → String → Option String
  | [], _ => none
  | f :: fs, s =>
    match strptime s f with
    | some d => some (strftimeYMD d)
    | none => tryFormats fs s

/-- `robust_date_parser(date_string)`; the `Option String` argument models the
Python parameter of type `str | None`, and `if not date_string` sends both
`None` and the empty string to `None`. -/
def robustDateParser : Option String → Option String
  | none => none
  | some s => if s = "" then none else tryFormats COMMON_DATE_FORMATS s

/-! ## Numeric normalization

`float(s)` on the decimal fragment of Python's float syntax: optional
surrounding whitespace, optional sign, a mantissa that is digits, digits '.'
digits, digits '.', or '.' digits (at least one digit overall), and an
optional exponent.  The special spellings `inf`/`infinity`/`nan` and
underscore digit separators are outside the fragment used by this pipeline and
are not modelled.  Values are rationals (see the module comment). -/

def digitsToNat (l : List Char) : Nat :=
  l.foldl (fun acc c => acc * 10 + charVal c) 0

/-- The parsed value `± mantissaDigits / 10^fracLen * 10^±exp`, built with
`mkRat` and `Nat` arithmetic (which normalize to a canonical rational). -/
def floatVal (neg : Bool) (mantissaDigits : List Char) (fracLen : Nat)
    (eneg : Bool) (e : Nat) : ℚ :=
  let n : Nat := if eneg then digitsToNat mantissaDigits
    else digitsToNat mantissaDigits * Nat.pow 10 e
  let den : Nat := if eneg then Nat.pow 10 fracLen * Nat.pow 10 e else Nat.pow 10 fracLen
  mkRat (if neg then Int.negOfNat n else Int.ofNat n) den

def pyFloatCore (l : List Char) : Option ℚ :=
  let (neg, l1) : Bool × List Char :=
    match l with
    | '+' :: r => (false, r)
    | '-' :: r => (true, r)
    | r => (false, r)
  let ip := l1.takeWhile Char.isDigit
  let l2 := l1.dropWhile Char.isDigit
  let (fp, l3) : List Char × List Char :=
    match l2 with
    | '.' :: r => (r.takeWhile Char.isDigit, r.dropWhile Char.isDigit)
    | r => ([], r)
  if ip.isEmpty ∧ fp.isEmpty then none
  else
    match l3 with
    | [] => some (floatVal neg (ip ++ fp) fp.length false 0)
    | e :: r =>
      if e = 'e' ∨ e = 'E' then
        let (eneg, r1) : Bool × List Char :=
          match r with
          | '+' :: r' => (false, r')
          | '-' :: r' => (true, r')
          | r' => (false, r')
        let ed := r1.takeWhile Char.isDigit
        if ed.isEmpty ∨ ¬(r1.dropWhile Char.isDigit).isEmpty then none
        else some (floatVal neg (ip ++ fp) fp.length eneg (digitsToNat ed))
      else none

/-- `float(s)` for a string argument, `none` where Python raises `ValueError`. -/
def pyFloat (s : String) : Option ℚ :=
  pyFloatCore ((s.toList.dropWhile Char.isWhitespace).reverse.dropWhile Char.isWhitespace).reverse

/-! ## Values and dictionaries

Two value types mirror the two shapes of Python dict the pipeline builds:
sub-records (the nested `line_item`/`vat` dicts, whose values are strings,
floats or `None`) and the top-level row (which additionally holds the two
lists of sub-records).  Dicts are insertion-ordered association lists;
assignment to an existing key updates it in place, otherwise appends. -/

inductive SVal where
  | str (s : String)
  | num (q : ℚ)
  | null
deriving DecidableEq, Repr

abbrev SubRec := List (String × SVal)

inductive Val where
  | str (s : String)
  | num (q : ℚ)
  | null
  | arr (l : List SubRec)
deriving DecidableEq, Repr

abbrev Dict := List (String × Val)

def dsetS (d : SubRec) (k : String) (v : SVal) : SubRec :=
  if (d.lookup k).isSome then d.map (fun p => if p.1 = k then (k, v) else p)
  else d ++ [(k, v)]

def dset (d : Dict) (k : String) (v : Val) : Dict :=
  if (d.lookup k).isSome then d.map (fun p => if p.1 = k then (k, v) else p)
  else d ++ [(k, v)]

/-- Keys of a dict, in order. -/
def keysOf (d : Dict) : List String := d.map Prod.fst

/-! ## `clean_numeric_fields`

The loop body is, per key in the cleaning set:
`item_dict[key] = float(str(value).replace(',', '')) if value else None`,
with `ValueError`/`TypeError` from the conversion caught and mapped to `None`.
Case analysis on the stored value:
* a string: falsy (empty) gives `None` without calling `float`; otherwise the
  comma-stripped text is parsed, failure giving `None`;
* a float: `float(str(v))` round-trips, so truthy (non-zero) values are kept
  and `0.0` is falsy, giving `None`;
* `None` is falsy, giving `None`;
* a list (top-level variant only): the empty list is falsy, and `float` of a
  non-empty list's `str` form always raises, so both give `None`. -/

/-- `s.replace(',', '')`: for a one-character pattern and empty replacement
this is exactly dropping every comma. -/
def stripCommas (s : String) : String :=
  String.mk (s.toList.filter fun c => c ≠ ',')

def cleanNumS : SVal → SVal
  | .str s =>
    if s = "" then .null
    else
      match pyFloat (stripCommas s) with
      | some q => .num q
      | none => .null
  | .num q => if q = 0 then .null else .num q
  | .null => .null

def cleanNumV : Val → Val
  | .str s =>
    if s = "" then .null
    else
      match pyFloat (stripCommas s) with
      | some q => .num q
      | none => .null
  | .num q => if q = 0 then .null else .num q
  | .null => .null
  | .arr _ => .null

/-- `clean_numeric_fields` on a nested sub-record (`keys_to_clean` is a set,
so only membership matters; iteration reassigns existing keys in place). -/
def clean_numeric_fields (d : SubRec) (keysToClean : List String) : SubRec :=
  d.map fun p => if p.1 ∈ keysToClean then (p.1, cleanNumS p.2) else p

/-- `clean_numeric_fields` applied to the top-level row dict. -/
def clean_numeric_fieldsTop (d : Dict) (keysToClean : List String) : Dict :=
  d.map fun p => if p.1 ∈ keysToClean then (p.1, cleanNumV p.2) else p

/-! ## Entities and `transform_ai_response` -/

/-- One entity of the extraction response; `properties` is the nested
sub-entity list of group entities. -/
inductive RawEntity where
  | mk (type_ : String) (mention_text : String) (properties : List RawEntity)

def RawEntity.type_ : RawEntity → String
  | .mk t _ _ => t

def RawEntity.mention_text : RawEntity → String
  | .mk _ m _ => m

def RawEntity.properties : RawEntity → List RawEntity
  | .mk _ _ ps => ps

/-- `str.split(sep)` for a one-character separator: the list of (possibly
empty) chunks between occurrences of the separator; always non-empty. -/
def splitOnChar (sep : Char) : List Char → List (List Char)
  | [] => [[]]
  | c :: rest =>
    let r := splitOnChar sep rest
    if c = sep then [] :: r
    else
      match r with
      | h :: t => (c :: h) :: t
      | [] => [[c]]

/-- `prop.type_.split('/')[-1]`. -/
def lastSeg (s : String) : String :=
  String.mk ((splitOnChar '/' s.toList).getLastD [])

/-- `text.replace('\n', ' ')`: for a one-character pattern and one-character
replacement this is exactly mapping newline to space. -/
def collapseNL (s : String) : String :=
  String.mk (s.toList.map fun c => if c = '\n' then ' ' else c)

def BQ_FLAT_COLUMNS : List String :=
  ["supplier_name", "supplier_address", "supplier_email", "supplier_phone",
   "supplier_website", "supplier_tax_id", "supplier_iban",
   "supplier_payment_ref", "supplier_registration", "receiver_name",
   "receiver_address", "receiver_email", "receiver_phone", "receiver_website",
   "receiver_tax_id", "invoice_id", "invoice_date", "due_date",
   "delivery_date", "currency", "currency_exchange_rate", "net_amount",
   "total_tax_amount", "freight_amount", "amount_paid_since_last_invoice",
   "total_amount", "purchase_order", "payment_terms", "carrier",
   "ship_to_name", "ship_to_address", "ship_from_name",
   "ship_from_address", "remit_to_name", "remit_to_address"]

/-- Build the nested dict of one group entity from its properties. -/
def propsToSubRec (props : List RawEntity) : SubRec :=
  props.foldl (fun d p => dsetS d (lastSeg p.type_) (.str (collapseNL p.mention_text))) []

/-- The single pass over `document.entities`: accumulate the flat row, the
line-item sub-records and the vat sub-records. -/
def classifyStep (acc : Dict × List SubRec × List SubRec) (e : RawEntity) :
    Dict × List SubRec × List SubRec :=
  let (row, items, vats) := acc
  if e.type_ = "line_item" then (row, items ++ [propsToSubRec e.properties], vats)
  else if e.type_ = "vat" then (row, items, vats ++ [propsToSubRec e.properties])
  else if e.type_ ∈ BQ_FLAT_COLUMNS then
    (dset row e.type_ (.str (collapseNL e.mention_text)), items, vats)
  else acc

def DATE_KEYS : List String := ["invoice_date", "due_date", "delivery_date"]

def TOP_LEVEL_NUMERIC_KEYS : List String :=
  ["net_amount", "total_tax_amount", "total_amount", "freight_amount"]

def LINE_ITEM_NUMERIC_KEYS : List String := ["quantity", "unit_price", "amount"]

def VAT_NUMERIC_KEYS : List String := ["tax_rate", "tax_amount", "amount", "total_amount"]

/-- `robust_date_parser(row[key])` applied to a stored value: non-string
truthy values make every `strptime` call raise `TypeError`, which the loop
catches, so every non-string argument comes back `None`, as do falsy ones. -/
def applyDateVal : Val → Val
  | .str s =>
    match robustDateParser (some s) with
    | some r => .str r
    | none => .null
  | _ => .null

def getVal (d : Dict) (k : String) : Val := (d.lookup k).getD .null

/-- `row.get(key, [])` where the pipeline stores a list under `key`. -/
def getArr (d : Dict) (k : String) : List SubRec :=
  match d.lookup k with
  | some (.arr l) => l
  | _ => []

/-- One iteration of the date-cleaning loop:
`if key in row: row[key] = robust_date_parser(row[key])`. -/
def dateStep (r : Dict) (k : String) : Dict :=
  if (r.lookup k).isSome then dset r k (applyDateVal (getVal r k)) else r

/-- `transform_ai_response`, as a function of `document.entities`. -/
def transform_ai_response (entities : List RawEntity) : Dict :=
  let acc := entities.foldl classifyStep ([], [], [])
  let row := dset acc.1 "line_items" (.arr acc.2.1)
  let row := dset row "vat" (.arr acc.2.2)
  let row := DATE_KEYS.foldl dateStep row
  let row := clean_numeric_fieldsTop row TOP_LEVEL_NUMERIC_KEYS
  let row := dset row "line_items"
    (.arr ((getArr row "line_items").map (clean_numeric_fields · LINE_ITEM_NUMERIC_KEYS)))
  let row := dset row "vat"
    (.arr ((getArr row "vat").map (clean_numeric_fields · VAT_NUMERIC_KEYS)))
  row

/-! ## Trigger decoding and the orchestrator

`parse_pubsub_message` is modelled from the point where the notification
payload has been base64/JSON-decoded to `{name, bucket}` plus the event id and
timestamp (the decoding itself is collaborator plumbing); its validation and
field extraction are embedded exactly.  `raise ValueError` is `Except.error`.
The external collaborators (extraction service, warehouse insert, archival
copy/delete) are oracle parameters; `process_invoice` records which
collaborators were invoked and the outcome propagated to the invoker (the
`except` block re-raises every exception after logging, so each failure
surfaces as an `Except.error` result). -/

structure FileInfo where
  user_id : String
  filename : String
  gcs_uri : String
  bucket_name : String
  full_gcs_path : String
  event_id : String
  timestamp : String
deriving DecidableEq, Repr

def parse_pubsub_message (name bucket eventId time : String) : Except String FileInfo :=
  match splitOnChar '/' name.toList with
  | [u, fn] =>
    .ok { user_id := String.mk u, filename := String.mk fn,
          gcs_uri := "gs://" ++ bucket ++ "/" ++ name,
          bucket_name := bucket, full_gcs_path := name,
          event_id := eventId, timestamp := time }
  | _ => .error ("Invalid file path format: " ++ name)

/-- `final_row.update({...})` in step 4 of `process_invoice`. -/
def enrich (row : Dict) (fi : FileInfo) : Dict :=
  [("event_id", Val.str fi.event_id),
   ("source_gcs_path", Val.str fi.gcs_uri),
   ("user_id", Val.str fi.user_id),
   ("processed_timestamp", Val.str fi.timestamp),
   ("status", Val.str "Pending_Approval")].foldl (fun r p => dset r p.1 p.2) row

structure Collaborators where
  /-- `process_document_with_ai`: URI to entity list, or a service error. -/
  extract : String → Except String (List RawEntity)
  /-- `bq_client.insert_rows_json`: the per-row error list (empty = success). -/
  insertErrors : Dict → List String

structure RunTrace where
  /-- What `process_invoice` signals to its invoker. -/
  result : Except String Unit
  /-- Whether the extraction collaborator was called. -/
  extraction_invoked : Bool
  /-- Whether the archival collaborator (copy + delete) was called. -/
  archive_invoked : Bool
  /-- The row handed to the warehouse sink, if the insert was attempted. -/
  sink_row : Option Dict
deriving Repr

def process_invoice (c : Collaborators) (name bucket eventId time : String) : RunTrace :=
  match parse_pubsub_message name bucket eventId time with
  | .error e => { result := .error e, extraction_invoked := false,
                  archive_invoked := false, sink_row := none }
  | .ok fi =>
    match c.extract fi.gcs_uri with
    | .error e => { result := .error e, extraction_invoked := true,
                    archive_invoked := false, sink_row := none }
    | .ok entities =>
      let finalRow := enrich (transform_ai_response entities) fi
      match c.insertErrors finalRow with
      | [] => { result := .ok (), extraction_invoked := true,
                archive_invoked := true, sink_row := some finalRow }
      | _ :: _ =>
        { result := .error "BigQuery insertion failed", extraction_invoked := true,
          archive_invoked := false, sink_row := some finalRow }

/-- The destination columns: the flat whitelist, the two group columns, and
the metadata columns merged in at the ENRICHED step. -/
def AUTHORITATIVE_COLUMNS : List String :=
  BQ_FLAT_COLUMNS ++
    ["line_items", "vat", "event_id", "source_gcs_path", "user_id",
     "processed_timestamp", "status"]

/-! ## Exception-level variants

To state totality (`never fail/throw`) the fallible primitives are re-embedded
with their Python exception behaviour explicit: `strptime` raises `ValueError`
on mismatch (`TypeError` on a non-string argument), `float` raises
`ValueError` on an unparseable string, and the `try/except` blocks of
`robust_date_parser` and `clean_numeric_fields` catch exactly
`(ValueError, TypeError)`, re-raising anything else.  The totality theorem
says these wrappers always return `.ok` and agree with the plain embedding. -/

inductive PyExc where
  | valueError (msg : String)
  | typeError (msg : String)
  | otherExc (msg : String)
deriving DecidableEq, Repr

/-- Which exceptions an `except (ValueError, TypeError)` clause catches. -/
def catchableVT : PyExc → Bool
  | .valueError _ => true
  | .typeError _ => true
  | .otherExc _ => false

def strptimeE (s : String) (f : DateFmt) : Except PyExc PDate :=
  match strptime s f with
  | some d => .ok d
  | none => .error (.valueError "time data does not match format")

def tryFormatsE : List DateFmt → String → Except PyExc (Option String)
  | [], _ => .ok none
  | f :: fs, s =>
    match strptimeE s f with
    | .ok d => .ok (some (strftimeYMD d))
    | .error e => if catchableVT e then tryFormatsE fs s else .error e

def robustDateParserE : Option String → Except PyExc (Option String)
  | none => .ok none
  | some s => if s = "" then .ok none else tryFormatsE COMMON_DATE_FORMATS s

def pyFloatE (s : String) : Except PyExc ℚ :=
  match pyFloat s with
  | some q => .ok q
  | none => .error (.valueError "could not convert string to float")

/-- One iteration of the `clean_numeric_fields` loop body, `try/except`
included. -/
def cleanNumSE (v : SVal) : Except PyExc SVal :=
  match v with
  | .str s =>
    if s = "" then .ok .null
    else
      match pyFloatE (stripCommas s) with
      | .ok q => .ok (.num q)
      | .error e => if catchableVT e then .ok .null else .error e
  | .num q => .ok (if q = 0 then .null else .num q)
  | .null => .ok .null

def cleanNumVE (v : Val) : Except PyExc Val :=
  match v with
  | .str s =>
    if s = "" then .ok .null
    else
      match pyFloatE (stripCommas s) with
      | .ok q => .ok (.num q)
      | .error e => if catchableVT e then .ok .null else .error e
  | .num q => .ok (if q = 0 then .null else .num q)
  | .null => .ok .null
  | .arr _ => .ok .null

def clean_numeric_fieldsE (d : SubRec) (keysToClean : List String) :
    Except PyExc SubRec :=
  d.mapM fun p =>
    if p.1 ∈ keysToClean then do
      let v ← cleanNumSE p.2
      pure (p.1, v)
    else pure p

def clean_numeric_fieldsTopE (d : Dict) (keysToClean : List String) :
    Except PyExc Dict :=
  d.mapM fun p =>
    if p.1 ∈ keysToClean then do
      let v ← cleanNumVE p.2
      pure (p.1, v)
    else pure p

/-- `robust_date_parser(row[key])` with exceptions explicit: `strptime` of a
non-string raises `TypeError`, which the loop catches for every format, so
every call returns normally. -/
def applyDateValE : Val → Except PyExc Val
  | .str s =>
    match robustDateParserE (some s) with
    | .ok (some r) => .ok (.str r)
    | .ok none => .ok .null
    | .error e => .error e
  | _ => .ok .null

/-- `transform_ai_response` with the fallible primitives in the exception
monad; the classification pass itself performs no fallible operation. -/
def transform_ai_responseE (entities : List RawEntity) : Except PyExc Dict := do
  let acc := entities.foldl classifyStep ([], [], [])
  let row := dset acc.1 "line_items" (.arr acc.2.1)
  let row := dset row "vat" (.arr acc.2.2)
  let row ← DATE_KEYS.foldlM
    (fun r k =>
      if (r.lookup k).isSome then do
        let v ← applyDateValE (getVal r k)
        pure (dset r k v)
      else pure r) row
  let row ← clean_numeric_fieldsTopE row TOP_LEVEL_NUMERIC_KEYS
  let items ← (getArr row "line_items").mapM (clean_numeric_fieldsE · LINE_ITEM_NUMERIC_KEYS)
  let row := dset row "line_items" (.arr items)
  let vats ← (getArr row "vat").mapM (clean_numeric_fieldsE · VAT_NUMERIC_KEYS)
  pure (dset row "vat" (.arr vats))

/-! ## Dictionary lemmas -/

theorem lookup_cons_pair (k a : String) (b : Val) (t : Dict) :
    List.lookup k ((a, b) :: t) = if k = a then some b else List.lookup k t := by
  by_cases h : k = a
  · simp [List.lookup, h]
  · have hb : (k == a) = false := by simpa using h
    simp [List.lookup, hb, h]

theorem lookup_setmap_self (d : Dict) (k : String) (v : Val)
    (h : (d.lookup k).isSome) :
    List.lookup k (d.map fun p => if p.1 = k then (k, v) else p) = some v := by
  induction d with
  | nil => simp [List.lookup] at h
  | cons p t ih =>
    obtain ⟨a, b⟩ := p
    rw [lookup_cons_pair] at h
    by_cases hp : a = k
    · simp only [List.map_cons, if_pos hp]
      rw [lookup_cons_pair, if_pos rfl]
    · simp only [List.map_cons, if_neg hp]
      rw [lookup_cons_pair, if_neg (fun hk => hp hk.symm)]
      rw [if_neg (fun hk => hp hk.symm)] at h
      exact ih h

theorem lookup_setmap_ne (d : Dict) (k k' : String) (v : Val) (h : k' ≠ k) :
    List.lookup k' (d.map fun p => if p.1 = k then (k, v) else p) = List.lookup k' d := by
  induction d with
  | nil => rfl
  | cons p t ih =>
    obtain ⟨a, b⟩ := p
    by_cases hp : a = k
    · simp only [List.map_cons, if_pos hp]
      rw [lookup_cons_pair, lookup_cons_pair, if_neg h,
        if_neg (show k' ≠ a from fun hh => h (hh.trans hp))]
      exact ih
    · simp only [List.map_cons, if_neg hp]
      rw [lookup_cons_pair, lookup_cons_pair]
      split
      · rfl
      · exact ih

theorem lookup_append_single_self (d : Dict) (k : String) (v : Val)
    (h : ¬ (d.lookup k).isSome) :
    List.lookup k (d ++ [(k, v)]) = some v := by
  induction d with
  | nil => rw [List.nil_append, lookup_cons_pair, if_pos rfl]
  | cons p t ih =>
    obtain ⟨a, b⟩ := p
    rw [lookup_cons_pair] at h
    by_cases hp : k = a
    · rw [if_pos hp] at h; simp at h
    · rw [if_neg hp] at h
      rw [List.cons_append, lookup_cons_pair, if_neg hp]
      exact ih h

theorem lookup_append_single_ne (d : Dict) (k k' : String) (v : Val) (h : k' ≠ k) :
    List.lookup k' (d ++ [(k, v)]) = List.lookup k' d := by
  induction d with
  | nil => simp only [List.nil_append, lookup_cons_pair, if_neg h]
  | cons p t ih =>
    obtain ⟨a, b⟩ := p
    rw [List.cons_append, lookup_cons_pair, lookup_cons_pair]
    split
    · rfl
    · exact ih

theorem lookup_dset_self (d : Dict) (k : String) (v : Val) :
    (dset d k v).lookup k = some v := by
  unfold dset
  split
  case isTrue h => exact lookup_setmap_self d k v h
  case isFalse h => exact lookup_append_single_self d k v h

theorem lookup_dset_ne (d : Dict) (k k' : String) (v : Val) (h : k' ≠ k) :
    (dset d k v).lookup k' = d.lookup k' := by
  unfold dset
  split
  · exact lookup_setmap_ne d k k' v h
  · exact lookup_append_single_ne d k k' v h

theorem mem_keysOf_dset {d : Dict} {k x : String} {v : Val}
    (h : x ∈ keysOf (dset d k v)) : x ∈ keysOf d ∨ x = k := by
  unfold dset at h
  split at h
  case isTrue _ =>
    unfold keysOf at h
    rw [List.mem_map] at h
    obtain ⟨p, hp, hx⟩ := h
    rw [List.mem_map] at hp
    obtain ⟨q, hq, rfl⟩ := hp
    by_cases hqk : q.1 = k
    · rw [if_pos hqk] at hx
      right; exact hx ▸ rfl
    · rw [if_neg hqk] at hx
      left; exact hx ▸ List.mem_map_of_mem _ hq
  case isFalse _ =>
    unfold keysOf at h ⊢
    rw [List.map_append, List.mem_append] at h
    rcases h with h | h
    · left; exact h
    · right; simpa using h

theorem keysOf_clean_numeric_fieldsTop (d : Dict) (ks : List String) :
    keysOf (clean_numeric_fieldsTop d ks) = keysOf d := by
  induction d with
  | nil => rfl
  | cons p t ih =>
    unfold clean_numeric_fieldsTop at ih ⊢
    unfold keysOf at ih ⊢
    simp only [List.map_cons]
    split <;> simp [ih]

theorem lookup_clean_numeric_fieldsTop (d : Dict) (ks : List String) (k : String) :
    (clean_numeric_fieldsTop d ks).lookup k
      = (d.lookup k).map (fun v => if k ∈ ks then cleanNumV v else v) := by
  induction d with
  | nil => rfl
  | cons p t ih =>
    obtain ⟨a, b⟩ := p
    unfold clean_numeric_fieldsTop at ih ⊢
    simp only [List.map_cons]
    by_cases hk : k = a
    · subst hk
      by_cases ha : k ∈ ks
      · rw [if_pos ha, lookup_cons_pair, lookup_cons_pair, if_pos rfl, if_pos rfl]
        simp [ha]
      · rw [if_neg ha, lookup_cons_pair, lookup_cons_pair, if_pos rfl, if_pos rfl]
        simp [ha]
    · by_cases ha : a ∈ ks
      · rw [if_pos ha, lookup_cons_pair, lookup_cons_pair, if_neg hk, if_neg hk]
        exact ih
      · rw [if_neg ha, lookup_cons_pair, lookup_cons_pair, if_neg hk, if_neg hk]
        exact ih

theorem dateStep_lookup_ne (r : Dict) (k k' : String) (h : k' ≠ k) :
    (dateStep r k).lookup k' = r.lookup k' := by
  unfold dateStep
  split
  · exact lookup_dset_ne r k k' _ h
  · rfl

theorem dateStep_lookup_none (r : Dict) (k k' : String) (h : r.lookup k' = none) :
    (dateStep r k).lookup k' = none := by
  by_cases hk : k' = k
  · subst hk
    unfold dateStep
    simp [h]
  · rw [dateStep_lookup_ne r k k' hk]; exact h

theorem mem_keysOf_dateStep {r : Dict} {k x : String}
    (h : x ∈ keysOf (dateStep r k)) : x ∈ keysOf r ∨ x = k := by
  unfold dateStep at h
  split at h
  · exact mem_keysOf_dset h
  · exact Or.inl h

/-! ## Classification fold lemmas -/

theorem classifyStep_skip (acc : Dict × List SubRec × List SubRec) (e : RawEntity)
    (h1 : e.type_ ≠ "line_item") (h2 : e.type_ ≠ "vat")
    (h3 : e.type_ ∉ BQ_FLAT_COLUMNS) : classifyStep acc e = acc := by
  rcases acc with ⟨row, items, vats⟩
  simp [classifyStep, h1, h2, h3]

theorem classify_fold_items (es : List RawEntity) (acc : Dict × List SubRec × List SubRec) :
    (es.foldl classifyStep acc).2.1
      = acc.2.1 ++ (es.filter fun e => e.type_ == "line_item").map
          (fun e => propsToSubRec e.properties) := by
  induction es generalizing acc with
  | nil => simp
  | cons e es ih =>
    rw [List.foldl_cons, ih]
    rcases acc with ⟨row, items, vats⟩
    by_cases h1 : e.type_ = "line_item"
    · simp [classifyStep, h1, List.filter_cons]
    · by_cases h2 : e.type_ = "vat"
      · simp [classifyStep, h1, h2, List.filter_cons]
      · by_cases h3 : e.type_ ∈ BQ_FLAT_COLUMNS
        · simp [classifyStep, h1, h2, h3, List.filter_cons]
        · simp [classifyStep, h1, h2, h3, List.filter_cons]

theorem classify_fold_vats (es : List RawEntity) (acc : Dict × List SubRec × List SubRec) :
    (es.foldl classifyStep acc).2.2
      = acc.2.2 ++ (es.filter fun e => e.type_ == "vat").map
          (fun e => propsToSubRec e.properties) := by
  induction es generalizing acc with
  | nil => simp
  | cons e es ih =>
    rw [List.foldl_cons, ih]
    rcases acc with ⟨row, items, vats⟩
    by_cases h1 : e.type_ = "line_item"
    · have h2 : e.type_ ≠ "vat" := by rw [h1]; decide
      simp [classifyStep, h1, h2, List.filter_cons]
    · by_cases h2 : e.type_ = "vat"
      · simp [classifyStep, h1, h2, List.filter_cons]
      · by_cases h3 : e.type_ ∈ BQ_FLAT_COLUMNS
        · simp [classifyStep, h1, h2, h3, List.filter_cons]
        · simp [classifyStep, h1, h2, h3, List.filter_cons]

theorem classify_fold_row_lookup (es : List RawEntity) (acc : Dict × List SubRec × List SubRec)
    (field : String) (hf : ∀ e ∈ es, e.type_ ≠ field) :
    ((es.foldl classifyStep acc).1).lookup field = acc.1.lookup field := by
  induction es generalizing acc with
  | nil => rfl
  | cons e es ih =>
    rw [List.foldl_cons]
    rw [ih _ (fun e' he' => hf e' (List.mem_cons_of_mem _ he'))]
    rcases acc with ⟨row, items, vats⟩
    have hef : e.type_ ≠ field := hf e (List.mem_cons_self _ _)
    by_cases h1 : e.type_ = "line_item"
    · simp [classifyStep, h1]
    · by_cases h2 : e.type_ = "vat"
      · simp [classifyStep, h1, h2]
      · by_cases h3 : e.type_ ∈ BQ_FLAT_COLUMNS
        · simp only [classifyStep, h1, h2, h3, if_true, if_false, if_neg h1, if_neg h2, if_pos h3]
          exact lookup_dset_ne row e.type_ field _ (fun hh => hef hh.symm)
        · simp [classifyStep, h1, h2, h3]

theorem classify_fold_row_keys (es : List RawEntity) (acc : Dict × List SubRec × List SubRec)
    (x : String) (h : x ∈ keysOf (es.foldl classifyStep acc).1) :
    x ∈ keysOf acc.1 ∨ x ∈ BQ_FLAT_COLUMNS := by
  induction es generalizing acc with
  | nil => exact Or.inl h
  | cons e es ih =>
    rw [List.foldl_cons] at h
    rcases ih _ h with h' | h'
    · rcases acc with ⟨row, items, vats⟩
      by_cases h1 : e.type_ = "line_item"
      · simp only [classifyStep, h1, if_true] at h'
        exact Or.inl h'
      · by_cases h2 : e.type_ = "vat"
        · simp only [classifyStep, h1, h2, if_false, if_true, if_neg h1, if_pos h2] at h'
          exact Or.inl h'
        · by_cases h3 : e.type_ ∈ BQ_FLAT_COLUMNS
          · simp only [classifyStep, if_neg h1, if_neg h2, if_pos h3] at h'
            rcases mem_keysOf_dset h' with h'' | h''
            · exact Or.inl h''
            · exact Or.inr (h'' ▸ h3)
          · simp only [classifyStep, if_neg h1, if_neg h2, if_neg h3] at h'
            exact Or.inl h'
    · exact Or.inr h'

/-! ## Date-fold lemmas -/

theorem dateFold_lookup_ne (ks : List String) (r : Dict) (k' : String)
    (h : ∀ k ∈ ks, k' ≠ k) :
    (ks.foldl dateStep r).lookup k' = r.lookup k' := by
  induction ks generalizing r with
  | nil => rfl
  | cons k ks ih =>
    rw [List.foldl_cons, ih _ (fun k2 hk2 => h k2 (List.mem_cons_of_mem _ hk2))]
    exact dateStep_lookup_ne r k k' (h k (List.mem_cons_self _ _))

theorem dateFold_lookup_none (ks : List String) (r : Dict) (k' : String)
    (h : r.lookup k' = none) :
    (ks.foldl dateStep r).lookup k' = none := by
  induction ks generalizing r with
  | nil => exact h
  | cons k ks ih =>
    rw [List.foldl_cons]
    exact ih _ (dateStep_lookup_none r k k' h)

theorem mem_keysOf_dateFold {ks : List String} {r : Dict} {x : String}
    (h : x ∈ keysOf (ks.foldl dateStep r)) : x ∈ keysOf r ∨ x ∈ ks := by
  induction ks generalizing r with
  | nil => exact Or.inl h
  | cons k ks ih =>
    rw [List.foldl_cons] at h
    rcases ih h with h' | h'
    · rcases mem_keysOf_dateStep h' with h'' | h''
      · exact Or.inl h''
      · exact Or.inr (h'' ▸ List.mem_cons_self _ _)
    · exact Or.inr (List.mem_cons_of_mem _ h')

/-! ## Transform-level lemmas -/

theorem transform_lookup_groups (es : List RawEntity) :
    (transform_ai_response es).lookup "line_items"
        = some (.arr (((es.filter fun e => e.type_ == "line_item").map
            (fun e => propsToSubRec e.properties)).map
            (clean_numeric_fields · LINE_ITEM_NUMERIC_KEYS)))
    ∧ (transform_ai_response es).lookup "vat"
        = some (.arr (((es.filter fun e => e.type_ == "vat").map
            (fun e => propsToSubRec e.properties)).map
            (clean_numeric_fields · VAT_NUMERIC_KEYS))) := by
  have hitems := classify_fold_items es ([], [], [])
  have hvats := classify_fold_vats es ([], [], [])
  simp only [List.nil_append] at hitems hvats
  simp only [transform_ai_response]
  set acc := es.foldl classifyStep ([], [], []) with hacc
  set row2 := dset (dset acc.1 "line_items" (Val.arr acc.2.1)) "vat" (Val.arr acc.2.2)
    with hrow2
  have h2li : row2.lookup "line_items" = some (.arr acc.2.1) := by
    rw [hrow2, lookup_dset_ne _ _ _ _ (by decide), lookup_dset_self]
  have h2v : row2.lookup "vat" = some (.arr acc.2.2) := by
    rw [hrow2, lookup_dset_self]
  set row3 := DATE_KEYS.foldl dateStep row2 with hrow3
  have h3li : row3.lookup "line_items" = some (.arr acc.2.1) := by
    rw [hrow3, dateFold_lookup_ne _ _ _ (by decide), h2li]
  have h3v : row3.lookup "vat" = some (.arr acc.2.2) := by
    rw [hrow3, dateFold_lookup_ne _ _ _ (by decide), h2v]
  set row4 := clean_numeric_fieldsTop row3 TOP_LEVEL_NUMERIC_KEYS with hrow4
  have h4li : row4.lookup "line_items" = some (.arr acc.2.1) := by
    rw [hrow4, lookup_clean_numeric_fieldsTop, h3li]
    simp [TOP_LEVEL_NUMERIC_KEYS]
  have h4v : row4.lookup "vat" = some (.arr acc.2.2) := by
    rw [hrow4, lookup_clean_numeric_fieldsTop, h3v]
    simp [TOP_LEVEL_NUMERIC_KEYS]
  have hgetli : getArr row4 "line_items" = acc.2.1 := by
    unfold getArr
    rw [h4li]
  set row5 := dset row4 "line_items"
    (Val.arr ((getArr row4 "line_items").map (clean_numeric_fields · LINE_ITEM_NUMERIC_KEYS)))
    with hrow5
  have h5li : row5.lookup "line_items"
      = some (.arr (acc.2.1.map (clean_numeric_fields · LINE_ITEM_NUMERIC_KEYS))) := by
    rw [hrow5, lookup_dset_self, hgetli]
  have h5v : row5.lookup "vat" = some (.arr acc.2.2) := by
    rw [hrow5, lookup_dset_ne _ _ _ _ (by decide), h4v]
  have hgetv : getArr row5 "vat" = acc.2.2 := by
    unfold getArr
    rw [h5v]
  constructor
  · rw [lookup_dset_ne _ _ _ _ (by decide), h5li, hitems]
  · rw [lookup_dset_self, hgetv, hvats]

theorem transform_lookup_absent_flat (es : List RawEntity) (field : String)
    (hfield : field ∈ BQ_FLAT_COLUMNS) (habsent : ∀ e ∈ es, e.type_ ≠ field) :
    (transform_ai_response es).lookup field = none := by
  have hli : field ≠ "line_items" := by
    rintro rfl; revert hfield; decide
  have hv : field ≠ "vat" := by
    rintro rfl; revert hfield; decide
  have h0 : ((es.foldl classifyStep ([], [], [])).1).lookup field = none := by
    rw [classify_fold_row_lookup es _ field habsent]; rfl
  simp only [transform_ai_response]
  rw [lookup_dset_ne _ _ _ _ hv, lookup_dset_ne _ _ _ _ hli,
    lookup_clean_numeric_fieldsTop,
    dateFold_lookup_none _ _ _ (by
      rw [lookup_dset_ne _ _ _ _ hv, lookup_dset_ne _ _ _ _ hli, h0])]
  rfl

theorem mem_keysOf_transform {es : List RawEntity} {x : String}
    (h : x ∈ keysOf (transform_ai_response es)) :
    x ∈ BQ_FLAT_COLUMNS ∨ x = "line_items" ∨ x = "vat" := by
  have hdk : ∀ y ∈ DATE_KEYS, y ∈ BQ_FLAT_COLUMNS := by decide
  simp only [transform_ai_response] at h
  rcases mem_keysOf_dset h with h | h
  case inr => exact Or.inr (Or.inr h)
  rcases mem_keysOf_dset h with h | h
  case inr => exact Or.inr (Or.inl h)
  rw [keysOf_clean_numeric_fieldsTop] at h
  rcases mem_keysOf_dateFold h with h | h
  case inr => exact Or.inl (hdk x h)
  rcases mem_keysOf_dset h with h | h
  case inr => exact Or.inr (Or.inr h)
  rcases mem_keysOf_dset h with h | h
  case inr => exact Or.inr (Or.inl h)
  rcases classify_fold_row_keys es _ x h with h | h
  · exact absurd h (by simp [keysOf])
  · exact Or.inl h

theorem mem_keysOf_enrich {row : Dict} {fi : FileInfo} {x : String}
    (h : x ∈ keysOf (enrich row fi)) :
    x ∈ keysOf row
      ∨ x ∈ ["event_id", "source_gcs_path", "user_id", "processed_timestamp", "status"] := by
  simp only [enrich, List.foldl_cons, List.foldl_nil] at h
  rcases mem_keysOf_dset h with h | h
  case inr => exact Or.inr (by rw [h]; decide)
  rcases mem_keysOf_dset h with h | h
  case inr => exact Or.inr (by rw [h]; decide)
  rcases mem_keysOf_dset h with h | h
  case inr => exact Or.inr (by rw [h]; decide)
  rcases mem_keysOf_dset h with h | h
  case inr => exact Or.inr (by rw [h]; decide)
  rcases mem_keysOf_dset h with h | h
  case inr => exact Or.inr (by rw [h]; decide)
  exact Or.inl h

/-! ## Path-splitting lemmas -/

theorem splitOnChar_no_sep (sep : Char) (l : List Char) (h : sep ∉ l) :
    splitOnChar sep l = [l] := by
  induction l with
  | nil => rfl
  | cons c t ih =>
    have hc : c ≠ sep := fun hc => h (hc ▸ List.mem_cons_self _ _)
    have ht : sep ∉ t := fun ht => h (List.mem_cons_of_mem _ ht)
    simp only [splitOnChar, if_neg hc, ih ht]

theorem splitOnChar_append_sep (sep : Char) (u rest : List Char) (h : sep ∉ u) :
    splitOnChar sep (u ++ sep :: rest) = u :: splitOnChar sep rest := by
  induction u with
  | nil => simp [splitOnChar]
  | cons c t ih =>
    have hc : c ≠ sep := fun hc => h (hc ▸ List.mem_cons_self _ _)
    have ht : sep ∉ t := fun ht => h (List.mem_cons_of_mem _ ht)
    rw [List.cons_append]
    simp only [splitOnChar, if_neg hc, ih ht]

/-! ## First-success formulation of the format loop -/

theorem tryFormats_eq_findSome (fs : List DateFmt) (s : String) :
    tryFormats fs s = (fs.findSome? (strptime s)).map strftimeYMD := by
  induction fs with
  | nil => rfl
  | cons f fs ih =>
    cases h : strptime s f <;> simp [tryFormats, List.findSome?_cons, h, ih]

/-! ## Totality lemmas: the exception-level embedding never escapes -/

theorem pybind_ok {α β : Type} (a : α) (f : α → Except PyExc β) :
    (Except.ok a >>= f) = f a := rfl

theorem tryFormatsE_ok (fs : List DateFmt) (s : String) :
    tryFormatsE fs s = .ok (tryFormats fs s) := by
  induction fs with
  | nil => rfl
  | cons f fs ih =>
    simp only [tryFormatsE, tryFormats, strptimeE]
    cases h : strptime s f
    · simpa [catchableVT] using ih
    · rfl

theorem robustDateParserE_ok (x : Option String) :
    robustDateParserE x = .ok (robustDateParser x) := by
  cases x with
  | none => rfl
  | some s =>
    simp only [robustDateParserE, robustDateParser]
    split
    · rfl
    · exact tryFormatsE_ok _ _

theorem cleanNumSE_ok (v : SVal) : cleanNumSE v = .ok (cleanNumS v) := by
  cases v with
  | str s =>
    simp only [cleanNumSE, cleanNumS, pyFloatE]
    split
    · rfl
    · cases h : pyFloat (stripCommas s) <;> simp [h, catchableVT]
  | num q => rfl
  | null => rfl

theorem cleanNumVE_ok (v : Val) : cleanNumVE v = .ok (cleanNumV v) := by
  cases v with
  | str s =>
    simp only [cleanNumVE, cleanNumV, pyFloatE]
    split
    · rfl
    · cases h : pyFloat (stripCommas s) <;> simp [h, catchableVT]
  | num q => rfl
  | null => rfl
  | arr l => rfl

theorem applyDateValE_ok (v : Val) : applyDateValE v = .ok (applyDateVal v) := by
  cases v with
  | str s =>
    simp only [applyDateValE, applyDateVal, robustDateParserE_ok]
    cases h : robustDateParser (some s) <;> rfl
  | num q => rfl
  | null => rfl
  | arr l => rfl

theorem mapM_except_ok {α β : Type} (f : α → β) (g : α → Except PyExc β)
    (hfg : ∀ a, g a = .ok (f a)) (l : List α) : l.mapM g = .ok (l.map f) := by
  induction l with
  | nil => rfl
  | cons a l ih =>
    rw [List.mapM_cons, hfg a, List.map_cons, pybind_ok, ih]
    rfl

theorem foldlM_except_ok {σ α : Type} (f : σ → α → σ) (g : σ → α → Except PyExc σ)
    (hfg : ∀ s a, g s a = .ok (f s a)) (l : List α) (s : σ) :
    l.foldlM g s = .ok (l.foldl f s) := by
  induction l generalizing s with
  | nil => rfl
  | cons a l ih =>
    rw [List.foldlM_cons, hfg s a, List.foldl_cons, pybind_ok, ih]

theorem clean_numeric_fieldsE_ok (d : SubRec) (ks : List String) :
    clean_numeric_fieldsE d ks = .ok (clean_numeric_fields d ks) := by
  unfold clean_numeric_fieldsE clean_numeric_fields
  refine mapM_except_ok _ _ (fun p => ?_) d
  by_cases h : p.1 ∈ ks
  · simp [h, cleanNumSE_ok]
  · simp only [h, if_neg h, if_false]
    rfl

theorem clean_numeric_fieldsTopE_ok (d : Dict) (ks : List String) :
    clean_numeric_fieldsTopE d ks = .ok (clean_numeric_fieldsTop d ks) := by
  unfold clean_numeric_fieldsTopE clean_numeric_fieldsTop
  refine mapM_except_ok _ _ (fun p => ?_) d
  by_cases h : p.1 ∈ ks
  · simp [h, cleanNumVE_ok]
  · simp only [h, if_neg h, if_false]
    rfl

theorem transform_ai_responseE_ok (es : List RawEntity) :
    transform_ai_responseE es = .ok (transform_ai_response es) := by
  have hdate : ∀ (r : Dict) (k : String),
      (if (r.lookup k).isSome then do
        let v ← applyDateValE (getVal r k)
        pure (dset r k v)
      else pure r) = Except.ok (dateStep r k) := by
    intro r k
    unfold dateStep
    split
    · rw [applyDateValE_ok, pybind_ok]
      rfl
    · rfl
  simp only [transform_ai_responseE, transform_ai_response]
  rw [foldlM_except_ok dateStep _ hdate, pybind_ok,
    clean_numeric_fieldsTopE_ok, pybind_ok,
    mapM_except_ok (clean_numeric_fields · LINE_ITEM_NUMERIC_KEYS) _
      (fun a => clean_numeric_fieldsE_ok a LINE_ITEM_NUMERIC_KEYS), pybind_ok,
    mapM_except_ok (clean_numeric_fields · VAT_NUMERIC_KEYS) _
      (fun a => clean_numeric_fieldsE_ok a VAT_NUMERIC_KEYS), pybind_ok]
  rfl

/-! ## Orchestrator lemmas -/

theorem sink_row_shape (c : Collaborators) (name bucket eventId time : String) (r : Dict)
    (hr : (process_invoice c name bucket eventId time).sink_row = some r) :
    ∃ fi ents, parse_pubsub_message name bucket eventId time = .ok fi
      ∧ c.extract fi.gcs_uri = .ok ents
      ∧ r = enrich (transform_ai_response ents) fi := by
  cases hp : parse_pubsub_message name bucket eventId time with
  | error e =>
    simp only [process_invoice, hp] at hr
    exact Option.noConfusion hr
  | ok fi =>
    cases hx : c.extract fi.gcs_uri with
    | error e2 =>
      simp only [process_invoice, hp, hx] at hr
      exact Option.noConfusion hr
    | ok ents =>
      simp only [process_invoice, hp, hx] at hr
      cases hins : c.insertErrors (enrich (transform_ai_response ents) fi) with
      | nil =>
        rw [hins] at hr
        simp only [Option.some.injEq] at hr
        exact ⟨fi, ents, rfl, hx, hr.symm⟩
      | cons a t =>
        rw [hins] at hr
        simp only [Option.some.injEq] at hr
        exact ⟨fi, ents, rfl, hx, hr.symm⟩

theorem enriched_keys_authoritative (es : List RawEntity) (fi : FileInfo) (k : String)
    (hk : k ∈ keysOf (enrich (transform_ai_response es) fi)) :
    k ∈ AUTHORITATIVE_COLUMNS := by
  rcases mem_keysOf_enrich hk with h | h
  · rcases mem_keysOf_transform h with h | h | h
    · unfold AUTHORITATIVE_COLUMNS
      exact List.mem_append_left _ h
    · subst h; decide
    · subst h; decide
  · simp only [List.mem_cons, List.not_mem_nil, or_false] at h
    rcases h with h | h | h | h | h <;> subst h <;> decide

/-! ## Claim theorems -/

/-- C1, counterexample: the claim's stated order (D/M/Y before M/D/Y) would
give `parse_date("01/02/2020") = "2020-02-01"`, but the code's format list
puts `%m/%d/%Y` before `%d/%m/%Y`, so the month-first reading wins and the
result is `"2020-01-02"`. -/
theorem C1_counterexample :
    robustDateParser (some "01/02/2020") ≠ some "2020-02-01"
      ∧ robustDateParser (some "01/02/2020") = some "2020-01-02" := by
  decide

/-- C1 (amended): `robust_date_parser` tries its fixed format list in source
order — month-name day-comma-year, day month-name-comma-year, M/D/Y, M-D-Y,
Y/M/D, Y-M-D, D/M/Y, D-M-Y — and returns the first successful parse
reformatted as `YYYY-MM-DD`; on the ambiguous `01/02/2020` the earlier-listed
month-first layout wins, giving `"2020-01-02"`. -/
theorem C1_first_matching_format_wins :
    (∀ s : String, robustDateParser (some s)
        = (COMMON_DATE_FORMATS.findSome? (strptime s)).map strftimeYMD)
    ∧ robustDateParser (some "01/02/2020") = some "2020-01-02"
    ∧ robustDateParser (some "January 31, 2016") = some "2016-01-31"
    ∧ robustDateParser (some "14/08/2023") = some "2023-08-14" := by
  refine ⟨fun s => ?_, by decide, by decide, by decide⟩
  by_cases h : s = ""
  · subst h; decide
  · simp only [robustDateParser, if_neg h]
    exact tryFormats_eq_findSome _ _

/-- C2, counterexample: on an empty entity list the schema field
`invoice_id` gets no key at all in the record (lookup is `none`), not a key
bound to an explicit null; and an empty-string `invoice_id` entity is stored
as the empty string — so an absent field and an empty-string field are
represented differently, contradicting the claimed collapse. -/
theorem C2_counterexample :
    (transform_ai_response []).lookup "invoice_id" = none
    ∧ ¬ ((transform_ai_response []).lookup "invoice_id" = some Val.null)
    ∧ (transform_ai_response [.mk "invoice_id" "" []]).lookup "invoice_id"
        = some (Val.str "") := by
  decide

/-- C2 (amended): a schema field with no corresponding entity in the raw
extraction output is omitted from the normalized record entirely — its key is
absent, not bound to an explicit null marker.  (Only `line_items` and `vat`
are always present.)  An empty-string entity, by contrast, does produce a
key — the empty string for plain string fields — so "extraction returned
empty string" and "field never appeared" remain distinguishable. -/
theorem C2_absent_fields_are_omitted (es : List RawEntity) (field : String)
    (hfield : field ∈ BQ_FLAT_COLUMNS) (habsent : ∀ e ∈ es, e.type_ ≠ field) :
    (transform_ai_response es).lookup field = none :=
  transform_lookup_absent_flat es field hfield habsent

theorem C2_witness :
    (transform_ai_response [.mk "total_amount" "5" []]).lookup "invoice_id" = none :=
  C2_absent_fields_are_omitted [.mk "total_amount" "5" []] "invoice_id"
    (by decide) (by decide)

/-- C3: every key of the record handed to the warehouse sink is a member of
the authoritative destination column set (the flat whitelist, the two group
columns, and the enrichment metadata columns); and an entity whose type is
neither a whitelisted scalar column nor a known group type contributes
nothing to the record. -/
theorem C3_only_authoritative_keys_reach_sink :
    (∀ (c : Collaborators) (name bucket eventId time : String) (r : Dict),
        (process_invoice c name bucket eventId time).sink_row = some r →
        ∀ k ∈ keysOf r, k ∈ AUTHORITATIVE_COLUMNS)
    ∧ (∀ (es1 es2 : List RawEntity) (e : RawEntity),
        e.type_ ≠ "line_item" → e.type_ ≠ "vat" → e.type_ ∉ BQ_FLAT_COLUMNS →
        transform_ai_response (es1 ++ e :: es2) = transform_ai_response (es1 ++ es2)) := by
  constructor
  · intro c name bucket eventId time r hr k hk
    obtain ⟨fi, ents, h1, h2, h3⟩ := sink_row_shape c name bucket eventId time r hr
    rw [h3] at hk
    exact enriched_keys_authoritative ents fi k hk
  · intro es1 es2 e h1 h2 h3
    have hfold : (es1 ++ e :: es2).foldl classifyStep ([], [], [])
        = (es1 ++ es2).foldl classifyStep ([], [], []) := by
      rw [List.foldl_append, List.foldl_append, List.foldl_cons,
        classifyStep_skip _ e h1 h2 h3]
    simp only [transform_ai_response, hfold]

theorem C3_witness :
    "status" ∈ AUTHORITATIVE_COLUMNS :=
  C3_only_authoritative_keys_reach_sink.1
    ⟨fun _ => .ok [], fun _ => []⟩ "u/f.pdf" "b" "evt" "ts"
    (enrich (transform_ai_response [])
      ⟨"u", "f.pdf", "gs://b/u/f.pdf", "b", "u/f.pdf", "evt", "ts"⟩)
    rfl "status" (by decide)

/-- C4, counterexample: a malformed path ("abc", zero separators) is indeed
rejected before extraction, but the failure is re-raised to the invoker
(`result` is an error, not a normal return), i.e. the job is not silently
dropped as a non-retryable validation failure — validation errors take the
same propagate-to-invoker path as every other failure. -/
theorem C4_counterexample :
    (process_invoice ⟨fun _ => .ok [], fun _ => []⟩ "abc" "bucket" "evt" "ts").result
        = .error ("Invalid file path format: " ++ "abc")
    ∧ (process_invoice ⟨fun _ => .ok [], fun _ => []⟩ "abc" "bucket" "evt" "ts").result
        ≠ .ok ()
    ∧ (process_invoice ⟨fun _ => .ok [], fun _ => []⟩ "abc" "bucket" "evt" "ts").extraction_invoked
        = false :=
  ⟨rfl, fun h => Except.noConfusion h, rfl⟩

/-- C4 (amended): a trigger whose object path does not split into exactly two
`/`-separated segments fails validation — the extraction collaborator is
never invoked and the error is propagated to the invoker (the same failure
path as any other error, so redelivery is the invoker's policy, not a
special non-retryable drop); a valid two-segment path `owner/name` parses to
exactly `owner` and `name`. -/
theorem C4_path_validation :
    (∀ (c : Collaborators) (name bucket eventId time : String),
        (splitOnChar '/' name.toList).length ≠ 2 →
        (process_invoice c name bucket eventId time).extraction_invoked = false
          ∧ (process_invoice c name bucket eventId time).result
              = .error ("Invalid file path format: " ++ name))
    ∧ (∀ (u fn : List Char) (bucket eventId time : String),
        '/' ∉ u → '/' ∉ fn →
        ∃ fi, parse_pubsub_message (String.mk (u ++ '/' :: fn)) bucket eventId time = .ok fi
          ∧ fi.user_id = String.mk u ∧ fi.filename = String.mk fn) := by
  constructor
  · intro c name bucket eventId time hlen
    have herr : parse_pubsub_message name bucket eventId time
        = .error ("Invalid file path format: " ++ name) := by
      unfold parse_pubsub_message
      rcases hsp : splitOnChar '/' name.toList with _ | ⟨x, _ | ⟨y, _ | ⟨z, t⟩⟩⟩
      · rfl
      · rfl
      · exact absurd (by rw [hsp]; rfl) hlen
      · rfl
    constructor
    · simp only [process_invoice, herr]
    · simp only [process_invoice, herr]
  · intro u fn bucket eventId time hu hfn
    have hsp : splitOnChar '/' (String.mk (u ++ '/' :: fn)).toList = [u, fn] := by
      show splitOnChar '/' (u ++ '/' :: fn) = [u, fn]
      rw [splitOnChar_append_sep _ _ _ hu, splitOnChar_no_sep _ _ hfn]
    refine ⟨⟨String.mk u, String.mk fn,
      "gs://" ++ bucket ++ "/" ++ String.mk (u ++ '/' :: fn), bucket,
      String.mk (u ++ '/' :: fn), eventId, time⟩, ?_, rfl, rfl⟩
    simp only [parse_pubsub_message, hsp]

theorem C4_witness :
    ((process_invoice ⟨fun _ => .ok [], fun _ => []⟩ "a/b/c" "bucket" "evt" "ts").extraction_invoked
        = false
      ∧ (process_invoice ⟨fun _ => .ok [], fun _ => []⟩ "a/b/c" "bucket" "evt" "ts").result
        = .error ("Invalid file path format: " ++ "a/b/c"))
    ∧ ∃ fi, parse_pubsub_message (String.mk (['u', '1'] ++ '/' :: ['f', '1'])) "b" "e" "t" = .ok fi
        ∧ fi.user_id = String.mk ['u', '1'] ∧ fi.filename = String.mk ['f', '1'] :=
  ⟨C4_path_validation.1 ⟨fun _ => .ok [], fun _ => []⟩ "a/b/c" "bucket" "evt" "ts" (by decide),
   C4_path_validation.2 ['u', '1'] ['f', '1'] "b" "e" "t" (by decide) (by decide)⟩

/-- C5: when the warehouse insert reports a non-empty error list, the job
ends in a propagated failure and the archival collaborator is never invoked
for that job. -/
theorem C5_insert_errors_block_archival (c : Collaborators)
    (name bucket eventId time : String) (fi : FileInfo) (ents : List RawEntity)
    (hp : parse_pubsub_message name bucket eventId time = .ok fi)
    (hx : c.extract fi.gcs_uri = .ok ents)
    (herr : c.insertErrors (enrich (transform_ai_response ents) fi) ≠ []) :
    (process_invoice c name bucket eventId time).archive_invoked = false
      ∧ (process_invoice c name bucket eventId time).result
          = .error "BigQuery insertion failed" := by
  cases hi : c.insertErrors (enrich (transform_ai_response ents) fi) with
  | nil => exact absurd hi herr
  | cons a t =>
    constructor
    · simp only [process_invoice, hp, hx, hi]
    · simp only [process_invoice, hp, hx, hi]

theorem C5_witness :
    (process_invoice ⟨fun _ => .ok [], fun _ => ["schema mismatch"]⟩
        "u/f.pdf" "b" "evt" "ts").archive_invoked = false
      ∧ (process_invoice ⟨fun _ => .ok [], fun _ => ["schema mismatch"]⟩
          "u/f.pdf" "b" "evt" "ts").result = .error "BigQuery insertion failed" :=
  C5_insert_errors_block_archival ⟨fun _ => .ok [], fun _ => ["schema mismatch"]⟩
    "u/f.pdf" "b" "evt" "ts"
    ⟨"u", "f.pdf", "gs://b/u/f.pdf", "b", "u/f.pdf", "evt", "ts"⟩ []
    rfl rfl (by decide)

/-- C6: the field normalizers and the whole EXTRACTED→NORMALIZED
transformation are total: re-embedded with Python's exception behaviour made
explicit (`strptime`/`float` raising, `try/except` catching
`ValueError`/`TypeError`), every call returns normally (`.ok`) and agrees
with the plain pure embedding — so the transformation is a pure,
deterministic, total function of the entity sequence. -/
theorem C6_normalization_total :
    (∀ x : Option String, robustDateParserE x = .ok (robustDateParser x))
    ∧ (∀ (d : SubRec) (ks : List String),
        clean_numeric_fieldsE d ks = .ok (clean_numeric_fields d ks))
    ∧ (∀ es : List RawEntity,
        transform_ai_responseE es = .ok (transform_ai_response es)) :=
  ⟨robustDateParserE_ok, clean_numeric_fieldsE_ok, transform_ai_responseE_ok⟩

/-- C8: numeric cleaning strips comma grouping separators and parses the
text as a float; the empty string and unparseable text give the explicit
absent value; and in general a non-empty string field either parses to that
float or degrades to the absent value. -/
theorem C8_parse_numeric :
    clean_numeric_fields [("amount", SVal.str "1,187.79")] ["amount"]
        = [("amount", SVal.num (1187.79 : ℚ))]
    ∧ clean_numeric_fields [("amount", SVal.str "")] ["amount"]
        = [("amount", SVal.null)]
    ∧ clean_numeric_fields [("amount", SVal.str "abc")] ["amount"]
        = [("amount", SVal.null)]
    ∧ (∀ s : String, cleanNumS (SVal.str s) = SVal.null
        ∨ ∃ q : ℚ, pyFloat (stripCommas s) = some q ∧ cleanNumS (SVal.str s) = SVal.num q) := by
  refine ⟨?_, by decide, by decide, fun s => ?_⟩
  · have h : (1187.79 : ℚ) = mkRat 118779 100 := by
      rw [Rat.mkRat_eq_divInt, Rat.divInt_eq_div]; norm_num
    rw [h]; decide
  · by_cases h : s = ""
    · subst h; left; rfl
    · simp only [cleanNumS, if_neg h]
      cases hq : pyFloat (stripCommas s) with
      | none => left; rfl
      | some q => right; exact ⟨q, rfl, rfl⟩

/-- C9 (scenario A): the two-entity document with an `invoice_id` and one
`line_item` group normalizes to exactly the record with the id string, one
line-item sub-record with floats `3.0` and `1200.0`, and an empty `vat`
list. -/
theorem C9_scenario_A :
    transform_ai_response
        [.mk "invoice_id" "INV-42" [],
         .mk "line_item" ""
           [.mk "line_item/quantity" "3" [], .mk "line_item/amount" "1,200.00" []]]
      = [("invoice_id", Val.str "INV-42"),
         ("line_items", Val.arr [[("quantity", SVal.num (3.0 : ℚ)),
                                  ("amount", SVal.num (1200.0 : ℚ))]]),
         ("vat", Val.arr [])] := by
  have h3 : (3.0 : ℚ) = 3 := by norm_num
  have h12 : (1200.0 : ℚ) = 1200 := by norm_num
  rw [h3, h12]
  decide

/-- C10: for every entity sequence the record contains the keys
`line_items` and `vat`, bound to lists holding exactly one cleaned
sub-record per group entity of the corresponding type, in input order
(empty lists when no such entity appears). -/
theorem C10_group_lists_always_present (es : List RawEntity) :
    (transform_ai_response es).lookup "line_items"
        = some (Val.arr (((es.filter fun e => e.type_ == "line_item").map
            (fun e => propsToSubRec e.properties)).map
            (clean_numeric_fields · LINE_ITEM_NUMERIC_KEYS)))
    ∧ (transform_ai_response es).lookup "vat"
        = some (Val.arr (((es.filter fun e => e.type_ == "vat").map
            (fun e => propsToSubRec e.properties)).map
            (clean_numeric_fields · VAT_NUMERIC_KEYS))) :=
  transform_lookup_groups es

/-! ## Digit-character lemmas (for the idempotence argument) -/

theorem dChar_isDigit {k : Nat} (hk : k < 10) : (dChar k).isDigit = true := by
  interval_cases k <;> decide

theorem dChar_not_ws {k : Nat} (hk : k < 10) : (dChar k).isWhitespace = false := by
  interval_cases k <;> decide

theorem dChar_ne_slash {k : Nat} (hk : k < 10) : dChar k ≠ '/' := by
  interval_cases k <;> decide

theorem dChar_ne_dash {k : Nat} (hk : k < 10) : dChar k ≠ '-' := by
  interval_cases k <;> decide

theorem charVal_dChar {k : Nat} (hk : k < 10) : charVal (dChar k) = k := by
  interval_cases k <;> decide

/-- A list whose first complete-pattern match fails at the first character:
case-insensitive month-name stripping cannot start at a digit. -/
theorem stripCI_head_ne {p c : Char} (ps cs : List Char) (h : lcEq p c = false) :
    stripCI (p :: ps) (c :: cs) = none := by
  simp [stripCI, h]

theorem pB_digit {k : Nat} (hk : k < 10) (t : List Char) : pB (dChar k :: t) = [] := by
  have hJ : lcEq 'J' (dChar k) = false := by interval_cases k <;> decide
  have hF : lcEq 'F' (dChar k) = false := by interval_cases k <;> decide
  have hM : lcEq 'M' (dChar k) = false := by interval_cases k <;> decide
  have hA : lcEq 'A' (dChar k) = false := by interval_cases k <;> decide
  have hS : lcEq 'S' (dChar k) = false := by interval_cases k <;> decide
  have hO : lcEq 'O' (dChar k) = false := by interval_cases k <;> decide
  have hN : lcEq 'N' (dChar k) = false := by interval_cases k <;> decide
  have hD : lcEq 'D' (dChar k) = false := by interval_cases k <;> decide
  unfold pB monthCand
  rw [show "January".toList = 'J' :: "anuary".toList from rfl, stripCI_head_ne _ _ hJ]
  rw [show "February".toList = 'F' :: "ebruary".toList from rfl, stripCI_head_ne _ _ hF]
  rw [show "March".toList = 'M' :: "arch".toList from rfl, stripCI_head_ne _ _ hM]
  rw [show "April".toList = 'A' :: "pril".toList from rfl, stripCI_head_ne _ _ hA]
  rw [show "May".toList = 'M' :: "ay".toList from rfl, stripCI_head_ne _ _ hM]
  rw [show "June".toList = 'J' :: "une".toList from rfl, stripCI_head_ne _ _ hJ]
  rw [show "July".toList = 'J' :: "uly".toList from rfl, stripCI_head_ne _ _ hJ]
  rw [show "August".toList = 'A' :: "ugust".toList from rfl, stripCI_head_ne _ _ hA]
  rw [show "September".toList = 'S' :: "eptember".toList from rfl, stripCI_head_ne _ _ hS]
  rw [show "October".toList = 'O' :: "ctober".toList from rfl, stripCI_head_ne _ _ hO]
  rw [show "November".toList = 'N' :: "ovember".toList from rfl, stripCI_head_ne _ _ hN]
  rw [show "December".toList = 'D' :: "ecember".toList from rfl, stripCI_head_ne _ _ hD]
  rfl

theorem pws_not_ws_head {c : Char} (hc : c.isWhitespace = false) (t : List Char) :
    pws (c :: t) = [] := by
  simp [pws, List.takeWhile_cons, hc]

theorem plit_ne {c c' : Char} (h : c' ≠ c) (t : List Char) : plit c (c' :: t) = [] := by
  simp [plit, h]

/-- Every backtracking candidate of `%m` on a two-or-more-character input
leaves either the whole tail or the tail minus its first character. -/
theorem pm_rests {c1 c2 : Char} {t : List Char} {x : Nat} {r : List Char}
    (h : (x, r) ∈ pm (c1 :: c2 :: t)) : r = t ∨ r = c2 :: t := by
  simp only [pm] at h
  rcases List.mem_append.mp h with h' | h3
  · rcases List.mem_append.mp h' with h1 | h2
    · split at h1
      · simp only [List.mem_singleton, Prod.mk.injEq] at h1
        exact Or.inl h1.2
      · exact absurd h1 (List.not_mem_nil _)
    · split at h2
      · simp only [List.mem_singleton, Prod.mk.injEq] at h2
        exact Or.inl h2.2
      · exact absurd h2 (List.not_mem_nil _)
  · split at h3
    · simp only [List.mem_singleton, Prod.mk.injEq] at h3
      exact Or.inr h3.2
    · exact absurd h3 (List.not_mem_nil _)

/-- Same for `%d`. -/
theorem pd_rests {c1 c2 : Char} {t : List Char} {x : Nat} {r : List Char}
    (h : (x, r) ∈ pd (c1 :: c2 :: t)) : r = t ∨ r = c2 :: t := by
  simp only [pd] at h
  rcases List.mem_append.mp h with h' | h4
  · rcases List.mem_append.mp h' with h'' | h3
    · rcases List.mem_append.mp h'' with h1 | h2
      · split at h1
        · simp only [List.mem_singleton, Prod.mk.injEq] at h1
          exact Or.inl h1.2
        · exact absurd h1 (List.not_mem_nil _)
      · split at h2
        · simp only [List.mem_singleton, Prod.mk.injEq] at h2
          exact Or.inl h2.2
        · exact absurd h2 (List.not_mem_nil _)
    · split at h3
      · simp only [List.mem_singleton, Prod.mk.injEq] at h3
        exact Or.inl h3.2
      · exact absurd h3 (List.not_mem_nil _)
  · split at h4
    · simp only [List.mem_singleton, Prod.mk.injEq] at h4
      exact Or.inr h4.2
    · exact absurd h4 (List.not_mem_nil _)

theorem flatMap_nil_of_forall {α β : Type} (l : List α) (f : α → List β)
    (h : ∀ x ∈ l, f x = []) : l.flatMap f = [] := by
  induction l with
  | nil => rfl
  | cons a l ih =>
    rw [List.flatMap_cons, h a (List.mem_cons_self _ _),
      ih (fun x hx => h x (List.mem_cons_of_mem _ hx)), List.nil_append]

/-- `%Y` on a zero-padded four-digit year consumes exactly the four digits. -/
theorem pY_pad4 (y : Nat) (hy : y ≤ 9999) (t : List Char) :
    pY (pad4 y ++ t) = [(y, t)] := by
  have h1 : y / 1000 % 10 < 10 := Nat.mod_lt _ (by norm_num)
  have h2 : y / 100 % 10 < 10 := Nat.mod_lt _ (by norm_num)
  have h3 : y / 10 % 10 < 10 := Nat.mod_lt _ (by norm_num)
  have h4 : y % 10 < 10 := Nat.mod_lt _ (by norm_num)
  show pY (dChar (y / 1000 % 10) :: dChar (y / 100 % 10) :: dChar (y / 10 % 10)
      :: dChar (y % 10) :: t) = [(y, t)]
  simp only [pY]
  rw [if_pos ⟨dChar_isDigit h1, dChar_isDigit h2, dChar_isDigit h3, dChar_isDigit h4⟩]
  rw [charVal_dChar h1, charVal_dChar h2, charVal_dChar h3, charVal_dChar h4]
  have : y / 1000 % 10 * 1000 + y / 100 % 10 * 100 + y / 10 % 10 * 10 + y % 10 = y := by
    omega
  rw [this]

/-- `%m` on a zero-padded two-digit month: the first backtracking candidate
consumes both digits and recovers the month. -/
theorem pm_pad2_head (m : Nat) (h1 : 1 ≤ m) (h2 : m ≤ 12) (t : List Char) :
    ∃ tail, pm (pad2 m ++ t) = (m, t) :: tail := by
  interval_cases m <;> exact ⟨_, rfl⟩

/-- `%d` on a zero-padded two-digit day: the first backtracking candidate
consumes both digits and recovers the day. -/
theorem pd_pad2_head (dd : Nat) (h1 : 1 ≤ dd) (h2 : dd ≤ 31) (t : List Char) :
    ∃ tail, pd (pad2 dd ++ t) = (dd, t) :: tail := by
  interval_cases dd <;> exact ⟨_, rfl⟩

/-! ## Format-level lemmas on strftime output -/

theorem strptime_of_nil (s : String) (f : DateFmt) (h : fmtCand f s.toList = []) :
    strptime s f = none := by
  unfold strptime
  rw [h]

theorem strptime_of_head (s : String) (f : DateFmt) (d0 : PDate)
    (h : (fmtCand f s.toList).head? = some (d0, [])) (hd : dateOK d0 = true) :
    strptime s f = some d0 := by
  unfold strptime
  cases hc : fmtCand f s.toList with
  | nil => rw [hc] at h; exact Option.noConfusion h
  | cons p tl =>
    rw [hc] at h
    simp only [List.head?] at h
    obtain rfl := Option.some.inj h
    simp [hd]

theorem fmtBdY_fail (y : Nat) (rest : List Char) :
    fmtCand .fmtBdY (pad4 y ++ rest) = [] := by
  have h1 : y / 1000 % 10 < 10 := Nat.mod_lt _ (by norm_num)
  show fmtCand .fmtBdY (dChar (y / 1000 % 10) :: dChar (y / 100 % 10)
    :: dChar (y / 10 % 10) :: dChar (y % 10) :: rest) = []
  simp only [fmtCand, pbind]
  rw [pB_digit h1]
  rfl

theorem fmtdBY_fail (y : Nat) (rest : List Char) :
    fmtCand .fmtdBY (pad4 y ++ rest) = [] := by
  have h2 : y / 100 % 10 < 10 := Nat.mod_lt _ (by norm_num)
  have h3 : y / 10 % 10 < 10 := Nat.mod_lt _ (by norm_num)
  show fmtCand .fmtdBY (dChar (y / 1000 % 10) :: dChar (y / 100 % 10)
    :: dChar (y / 10 % 10) :: dChar (y % 10) :: rest) = []
  simp only [fmtCand, pbind]
  apply flatMap_nil_of_forall
  rintro ⟨x, r⟩ hx
  rcases pd_rests hx with rfl | rfl
  · rw [pws_not_ws_head (dChar_not_ws h3)]
    rfl
  · rw [pws_not_ws_head (dChar_not_ws h2)]
    rfl

theorem fmtmdY_fail (y : Nat) (rest : List Char) :
    fmtCand .fmtmdY (pad4 y ++ rest) = [] := by
  have h2 : y / 100 % 10 < 10 := Nat.mod_lt _ (by norm_num)
  have h3 : y / 10 % 10 < 10 := Nat.mod_lt _ (by norm_num)
  show fmtCand .fmtmdY (dChar (y / 1000 % 10) :: dChar (y / 100 % 10)
    :: dChar (y / 10 % 10) :: dChar (y % 10) :: rest) = []
  simp only [fmtCand, pbind]
  apply flatMap_nil_of_forall
  rintro ⟨x, r⟩ hx
  rcases pm_rests hx with rfl | rfl
  · rw [plit_ne (dChar_ne_slash h3)]
    rfl
  · rw [plit_ne (dChar_ne_slash h2)]
    rfl

theorem fmtmdY2_fail (y : Nat) (rest : List Char) :
    fmtCand .fmtmdY2 (pad4 y ++ rest) = [] := by
  have h2 : y / 100 % 10 < 10 := Nat.mod_lt _ (by norm_num)
  have h3 : y / 10 % 10 < 10 := Nat.mod_lt _ (by norm_num)
  show fmtCand .fmtmdY2 (dChar (y / 1000 % 10) :: dChar (y / 100 % 10)
    :: dChar (y / 10 % 10) :: dChar (y % 10) :: rest) = []
  simp only [fmtCand, pbind]
  apply flatMap_nil_of_forall
  rintro ⟨x, r⟩ hx
  rcases pm_rests hx with rfl | rfl
  · rw [plit_ne (dChar_ne_dash h3)]
    rfl
  · rw [plit_ne (dChar_ne_dash h2)]
    rfl

theorem fmtYmd_fail (y : Nat) (hy : y ≤ 9999) (rest : List Char) :
    fmtCand .fmtYmd (pad4 y ++ '-' :: rest) = [] := by
  simp only [fmtCand, pbind]
  rw [pY_pad4 y hy]
  simp only [List.flatMap_cons, List.flatMap_nil, List.append_nil]
  rw [plit_ne (show '-' ≠ '/' by decide)]
  rfl

theorem fmtYmd2_head (y m dd : Nat) (hy : y ≤ 9999) (hm1 : 1 ≤ m) (hm2 : m ≤ 12)
    (hd1 : 1 ≤ dd) (hd2 : dd ≤ 31) :
    (fmtCand .fmtYmd2 (pad4 y ++ '-' :: (pad2 m ++ '-' :: pad2 dd))).head?
      = some (⟨y, m, dd⟩, []) := by
  obtain ⟨tm, hpm⟩ := pm_pad2_head m hm1 hm2 ('-' :: pad2 dd)
  obtain ⟨td, hpd⟩ := pd_pad2_head dd hd1 hd2 []
  rw [List.append_nil] at hpd
  simp only [fmtCand, pbind]
  rw [pY_pad4 y hy]
  simp only [List.flatMap_cons, List.flatMap_nil, List.append_nil]
  rw [show plit '-' ('-' :: (pad2 m ++ '-' :: pad2 dd))
    = [((), pad2 m ++ '-' :: pad2 dd)] from rfl]
  simp only [List.flatMap_cons, List.flatMap_nil, List.append_nil]
  rw [hpm]
  simp only [List.flatMap_cons]
  rw [show plit '-' ('-' :: pad2 dd) = [((), pad2 dd)] from rfl]
  simp only [List.flatMap_cons, List.flatMap_nil, List.append_nil]
  rw [hpd]
  simp only [List.flatMap_cons, ppure, List.cons_append, List.head?]

/-! ## Reparse and idempotence -/

theorem daysInMonth_le_31 (y m : Nat) : daysInMonth y m ≤ 31 := by
  unfold daysInMonth
  split
  · split <;> norm_num
  · split <;> norm_num

theorem strptime_some_valid {s : String} {f : DateFmt} {d : PDate}
    (h : strptime s f = some d) : dateOK d = true := by
  unfold strptime at h
  split at h
  · exact Option.noConfusion h
  · split at h
    · rename_i hcond
      obtain rfl := Option.some.inj h
      exact hcond.2
    · exact Option.noConfusion h

theorem tryFormats_some {fs : List DateFmt} {s : String} {r : String}
    (h : tryFormats fs s = some r) :
    ∃ d, dateOK d = true ∧ r = strftimeYMD d := by
  induction fs with
  | nil => exact Option.noConfusion h
  | cons f fs ih =>
    unfold tryFormats at h
    cases hst : strptime s f with
    | none => rw [hst] at h; exact ih h
    | some d0 =>
      rw [hst] at h
      exact ⟨d0, strptime_some_valid hst, (Option.some.inj h).symm⟩

theorem tryFormats_cons_none {f : DateFmt} {fs : List DateFmt} {s : String}
    (h : strptime s f = none) :
    tryFormats (f :: fs) s = tryFormats fs s := by
  show (match strptime s f with
    | some d => some (strftimeYMD d)
    | none => tryFormats fs s) = tryFormats fs s
  rw [h]

theorem tryFormats_cons_some {f : DateFmt} {fs : List DateFmt} {s : String} {d : PDate}
    (h : strptime s f = some d) :
    tryFormats (f :: fs) s = some (strftimeYMD d) := by
  show (match strptime s f with
    | some d => some (strftimeYMD d)
    | none => tryFormats fs s) = some (strftimeYMD d)
  rw [h]

theorem robust_reparse (d : PDate) (hd : dateOK d = true) :
    robustDateParser (some (strftimeYMD d)) = some (strftimeYMD d) := by
  obtain ⟨y, m, dd⟩ := d
  have hb := hd
  simp only [dateOK, Bool.and_eq_true, decide_eq_true_eq] at hb
  obtain ⟨⟨⟨⟨⟨hy1, hy2⟩, hm1⟩, hm2⟩, hdd1⟩, hdd2⟩ := hb
  have hdd31 : dd ≤ 31 := le_trans hdd2 (daysInMonth_le_31 y m)
  have hne : strftimeYMD ⟨y, m, dd⟩ ≠ "" := by
    intro hc
    have hdata := congrArg String.data hc
    simp [strftimeYMD, pad4] at hdata
  have htoList : (strftimeYMD ⟨y, m, dd⟩).toList
      = pad4 y ++ '-' :: (pad2 m ++ '-' :: pad2 dd) := rfl
  have h0 : strptime (strftimeYMD ⟨y, m, dd⟩) .fmtBdY = none :=
    strptime_of_nil _ _ (by rw [htoList]; exact fmtBdY_fail y _)
  have h1 : strptime (strftimeYMD ⟨y, m, dd⟩) .fmtdBY = none :=
    strptime_of_nil _ _ (by rw [htoList]; exact fmtdBY_fail y _)
  have h2 : strptime (strftimeYMD ⟨y, m, dd⟩) .fmtmdY = none :=
    strptime_of_nil _ _ (by rw [htoList]; exact fmtmdY_fail y _)
  have h3 : strptime (strftimeYMD ⟨y, m, dd⟩) .fmtmdY2 = none :=
    strptime_of_nil _ _ (by rw [htoList]; exact fmtmdY2_fail y _)
  have h4 : strptime (strftimeYMD ⟨y, m, dd⟩) .fmtYmd = none :=
    strptime_of_nil _ _ (by rw [htoList]; exact fmtYmd_fail y hy2 _)
  have h5 : strptime (strftimeYMD ⟨y, m, dd⟩) .fmtYmd2 = some ⟨y, m, dd⟩ :=
    strptime_of_head _ _ _
      (by rw [htoList]; exact fmtYmd2_head y m dd hy2 hm1 hm2 hdd1 hdd31) hd
  simp only [robustDateParser, if_neg hne, COMMON_DATE_FORMATS]
  rw [tryFormats_cons_none h0, tryFormats_cons_none h1, tryFormats_cons_none h2,
    tryFormats_cons_none h3, tryFormats_cons_none h4, tryFormats_cons_some h5]

/-- C7: `parse_date` is idempotent on its own output: whenever
`parse_date(x)` is not absent, parsing the produced `YYYY-MM-DD` string again
returns it unchanged — the `%Y-%m-%d` layout is recognized and no
earlier-listed layout matches a zero-padded `YYYY-MM-DD` string. -/
theorem C7_parse_date_idempotent (s r : String)
    (h : robustDateParser (some s) = some r) :
    robustDateParser (some r) = some r := by
  by_cases hs : s = ""
  · subst hs
    exact Option.noConfusion h
  · simp only [robustDateParser, if_neg hs] at h
    obtain ⟨d, hd, hr⟩ := tryFormats_some h
    rw [hr]
    exact robust_reparse d hd

theorem C7_witness :
    robustDateParser (some "01/31/2016") = some "2016-01-31"
      ∧ robustDateParser (some "2016-01-31") = some "2016-01-31" :=
  ⟨by decide, C7_parse_date_idempotent "01/31/2016" "2016-01-31" (by decide)⟩
